import Mathlib

/-!
Verification of the Sota vision-test GUI client
(`SotaVisionTest/vision_test_server/vision_test_gui.py`).

The development shallowly embeds the connection/protocol layer
(`SotaConnection._read_exact`, `_read_line`, `_read_int`,
`send_get_frame`), the analysis pipeline (`_race_queue`, `_race_worker`,
the submission check in `_render_frame`), the frame-poll loop
(`_frame_loop`, `_do_take_photo`) and the client frame-rate computation,
and proves the specification's testable properties about them.

Bytes are `Nat` (values < 256 on real inputs; nothing below depends on
the bound except where stated).  The incoming TCP byte stream is
modelled as a list of chunks: each `recv` call delivers (a prefix of)
the head chunk; an exhausted list — or an empty chunk — models the peer
having closed the connection, so `recv` returns the empty string, as
POSIX `recv` does on an orderly shutdown.  Wall-clock times are `ℚ`.
-/

namespace SotaVision

/-- One `sock.recv(k)` call on a chunked stream: deliver at most `k`
bytes from the head chunk, keeping any remainder at the front; an empty
stream (peer closed) yields the empty byte string. -/
def recv (k : Nat) (s : List (List Nat)) : List Nat × List (List Nat) :=
  match s with
  | [] => ([], [])
  | c :: rest =>
      (c.take k, if c.drop k = [] then rest else c.drop k :: rest)

/-- Total number of bytes still deliverable by the stream. -/
def totalLen (s : List (List Nat)) : Nat := (s.map List.length).sum

/-- Model of `SotaConnection._read_exact`, inner loop, with `need` the number of
bytes still missing (`n - len(buf)` in the source): while bytes are
missing, `recv(min(need, 65536))`; an empty chunk raises
`ConnectionError`; otherwise the chunk is appended and the loop
continues.  Returns the bytes read and the remaining stream. -/
def readExactAux (need : Nat) (s : List (List Nat)) :
    Except Unit (List Nat × List (List Nat)) :=
  if h0 : need = 0 then .ok ([], s)
  else
    if hc : (recv (min need 65536) s).1 = [] then .error ()
    else
      match readExactAux (need - (recv (min need 65536) s).1.length)
          (recv (min need 65536) s).2 with
      | .error e => .error e
      | .ok (rest, s2) => .ok ((recv (min need 65536) s).1 ++ rest, s2)
termination_by need
decreasing_by
  have h1 : 0 < (recv (min need 65536) s).1.length := List.length_pos.mpr hc
  omega

/-- Model of `SotaConnection._read_exact(n)`.  The argument is an `Int` because
the caller `_read_int` decodes a *signed* 4-byte length; the Python
loop `while len(buf) < n` runs zero times when `n <= 0`. -/
def readExact (n : Int) (s : List (List Nat)) :
    Except Unit (List Nat × List (List Nat)) :=
  readExactAux n.toNat s

/-- Model of `SotaConnection._read_line`: read one byte at a time until a
newline (byte 10); a closed connection before the newline raises
`ConnectionError`.  Returns the line's bytes (newline excluded) and the
remaining stream. -/
def readLineAux (s : List (List Nat)) :
    Except Unit (List Nat × List (List Nat)) :=
  match h : recv 1 s with
  | ([], _) => .error ()
  | (ch :: _, s1) =>
    if ch = 10 then .ok ([], s1)
    else
      match readLineAux s1 with
      | .error e => .error e
      | .ok (line, s2) => .ok (ch :: line, s2)
termination_by totalLen s
decreasing_by
  cases s with
  | nil => exact absurd h (by simp [recv])
  | cons c rest =>
    cases c with
    | nil => exact absurd h (by simp [recv])
    | cons b bs =>
      have hs1 : s1 = if bs = [] then rest else bs :: rest := by
        have h2 := congrArg Prod.snd h
        simpa [recv] using h2.symm
      subst hs1
      by_cases hbs : bs = []
      · subst hbs
        simp [totalLen]
      · simp only [if_neg hbs]
        simp [totalLen]

/-- Model of `struct.unpack(">i", data)[0]`: big-endian two's-complement signed
32-bit decoding of 4 bytes. -/
def decodeInt32BE (bs : List Nat) : Int :=
  let u : Nat := bs.getD 0 0 * 2 ^ 24 + bs.getD 1 0 * 2 ^ 16 +
    bs.getD 2 0 * 2 ^ 8 + bs.getD 3 0
  if u < 2 ^ 31 then (u : Int) else (u : Int) - 2 ^ 32

/-- Model of `SotaConnection._read_int`: read exactly 4 bytes and decode them as
a signed big-endian integer. -/
def readInt (s : List (List Nat)) :
    Except Unit (Int × List (List Nat)) :=
  match readExactAux 4 s with
  | .error e => .error e
  | .ok (data, s1) => .ok (decodeInt32BE data, s1)

/-- The bytes of the expected header marker `"FRAME"`. -/
def frameMarker : List Nat := [70, 82, 65, 77, 69]

/-- Model of `header.startswith("FRAME")` on raw header bytes. -/
def startsWithMarker (l : List Nat) : Bool :=
  decide (l.take 5 = frameMarker)

/-- Result of a `GET_FRAME` exchange: either a frame (raw UTF-8 JSON
metadata bytes plus an optional image payload), or — for any other
header — the error-shaped metadata `{"error": header}` with no image. -/
inductive GetFrameResult where
  | frame (metaBytes : List Nat) (img : Option (List Nat))
  | errorHeader (header : List Nat)
deriving DecidableEq

/-- Model of `SotaConnection.send_get_frame`, reading side: read the header
line; if it starts with `"FRAME"`, read a length-prefixed metadata
segment and a length-prefixed image segment (absent when its length is
not positive); otherwise return `{"error": header}` with no image and
read nothing further. -/
def send_get_frame (s : List (List Nat)) :
    Except Unit (GetFrameResult × List (List Nat)) :=
  match readLineAux s with
  | .error e => .error e
  | .ok (header, s1) =>
    if startsWithMarker header then
      match readInt s1 with
      | .error e => .error e
      | .ok (metaLen, s2) =>
        match readExact metaLen s2 with
        | .error e => .error e
        | .ok (metaBytes, s3) =>
          match readInt s3 with
          | .error e => .error e
          | .ok (imgLen, s4) =>
            if 0 < imgLen then
              match readExact imgLen s4 with
              | .error e => .error e
              | .ok (imgBytes, s5) => .ok (.frame metaBytes (some imgBytes), s5)
            else .ok (.frame metaBytes none, s4)
    else .ok (.errorHeader header, s1)

/-! ## Analysis pipeline: `_race_queue`, `_render_frame` submission check,
`_race_worker` -/

/-- One detected face's bounding box from the frame metadata
(`f["x"], f["y"], f["w"], f["h"]`). -/
structure Face where
  x : Int
  y : Int
  w : Int
  h : Int
deriving DecidableEq, Inhabited

/-- The slice of frame metadata the submission check reads:
`metadata.get("faces", [])`. -/
structure FrameMeta where
  faces : List Face
deriving DecidableEq

/-- A successfully decoded image (`Image.open` result); its pixel
content is irrelevant to every property below. -/
structure Img where
  w : Nat
  h : Nat
deriving DecidableEq

/-- The analysis-pipeline state shared between the render path and the
worker: the job queue's backing list and capacity (`queue.Queue`),
`_race_running`, and `_race_last`. -/
structure SysState where
  queue : List Face
  maxsize : Nat
  running : Bool
  raceLast : ℚ
deriving DecidableEq

/-- Pipeline state built by `VisionTestGUI.__init__`:
`queue.Queue(maxsize=1)`, worker idle, `_race_last = 0.0`. -/
def initState : SysState :=
  { queue := [], maxsize := 1, running := false, raceLast := 0 }

/-- Model of `Queue.full()` for a queue of positive `maxsize`. -/
def queueFull (s : SysState) : Bool := s.maxsize ≤ s.queue.length

/-- Model of `Queue.put_nowait`: append the item, or fail (`queue.Full`) when
the queue already holds `maxsize` items. -/
def putNowait (s : SysState) (j : Face) : Option SysState :=
  if s.maxsize ≤ s.queue.length then none
  else some { s with queue := s.queue ++ [j] }

/-- The DeepFace submission step of `VisionTestGUI._render_frame`:
with no image payload the method returns before the check; otherwise a
job (the first face) is enqueued exactly when DeepFace is available,
the faces list is non-empty, the worker is idle, the queue is not full
and more than `_race_interval = 5` seconds have passed since
`_race_last`; `_race_last` is then set to the current time.  Returns
the new state and whether a job was submitted. -/
def renderFrameStep (avail : Bool) (s : SysState) (meta : FrameMeta)
    (img : Option Img) (now : ℚ) : SysState × Bool :=
  match img with
  | none => (s, false)
  | some _ =>
    if avail = true ∧ meta.faces ≠ [] ∧ s.running = false ∧
        queueFull s = false ∧ now - s.raceLast > 5 then
      match putNowait s (meta.faces.headI) with
      | some s1 => ({ s1 with raceLast := now }, true)
      | none => (s, false)
    else (s, false)

/-- States of the analysis pipeline reachable from `initState` under
the operations the program performs on it: render-path submissions,
the worker taking a job (`get`) and finishing one, and
`_clear_info_labels` resetting `_race_last`. -/
inductive Reach : SysState → Prop where
  | init : Reach initState
  | render (avail : Bool) (meta : FrameMeta) (img : Option Img) (now : ℚ)
      {s : SysState} (hs : Reach s) :
      Reach (renderFrameStep avail s meta img now).1
  | workerTake {s : SysState} (hs : Reach s) (j : Face) (rest : List Face)
      (hq : s.queue = j :: rest) :
      Reach { s with queue := rest, running := true }
  | workerDone {s : SysState} (hs : Reach s) :
      Reach { s with running := false }
  | clearLabels {s : SysState} (hs : Reach s) :
      Reach { s with raceLast := 0 }

/-- Worker-visible state: `_race_running` and the cached
`_race_result`. -/
structure WState where
  running : Bool
  result : Option String
deriving DecidableEq

/-- What one `_race_queue.get(timeout=1.0)` call yields: a timeout
(`queue.Empty`), a job, or the `None` poison sentinel. -/
inductive QEvent where
  | timeout
  | job (j : Face)
  | sentinel
deriving DecidableEq

/-- One iteration of the `_race_worker` loop, parameterised by the
classification engine `classify` (DeepFace plus label formatting,
an opaque image-to-label function that may throw).  Returns the new
state, the label published via `_update_race_label` (if any), and
whether the loop exited.  On a job: mark busy; on engine success
publish and cache the label; on an engine exception publish the
error label and leave the cache alone; in both cases mark idle
again.  Only the `None` sentinel exits the loop; a `get` timeout
just continues. -/
def workerStep (classify : Face → Except Unit String) (e : QEvent)
    (s : WState) : WState × Option String × Bool :=
  match e with
  | .timeout => (s, none, false)
  | .sentinel => (s, none, true)
  | .job j =>
    match classify j with
    | .ok label =>
        ({ running := false, result := some label }, some label, false)
    | .error _ =>
        ({ running := false, result := s.result }, some "Race: Error", false)

/-- Run the worker loop over a list of queue events, collecting the
published labels; stops early when an event exits the loop. -/
def workerRun (classify : Face → Except Unit String) :
    List QEvent → WState → WState × List String × Bool
  | [], s => (s, [], false)
  | e :: rest, s =>
    match workerStep classify e s with
    | (s1, pub, true) => (s1, pub.toList, true)
    | (s1, pub, false) =>
      match workerRun classify rest s1 with
      | (s2, pubs, ex) => (s2, pub.toList ++ pubs, ex)

/-! ## Frame poller: `_frame_loop`, `_do_take_photo`, client FPS -/

/-- Model of the `_frame_loop` frame-time bookkeeping after a successful poll at
time `now`: append `now`, then keep only entries `t` with
`now - t < 2.0`. -/
def updateFrameTimes (times : List ℚ) (now : ℚ) : List ℚ :=
  (times ++ [now]).filter (fun t => now - t < 2)

/-- The client-FPS value `_render_frame` computes: defined only when
the window holds at least two timestamps and the span from first to
last entry is strictly positive, in which case it is
`(count - 1) / duration`. -/
def clientFps (times : List ℚ) : Option ℚ :=
  if 2 ≤ times.length then
    if 0 < times.getLastD 0 - times.headD 0 then
      some (((times.length - 1 : ℕ) : ℚ) / (times.getLastD 0 - times.headD 0))
    else none
  else none

/-- The displayed client-FPS label after rendering one frame: updated
to the freshly computed value when one exists, otherwise left at its
previous value. -/
def fpsLabelAfter (times : List ℚ) (prev : Option ℚ) : Option ℚ :=
  match clientFps times with
  | some v => some v
  | none => prev

/-- Poll-loop state: `streaming`, `conn.connected`,
`_photo_pause_until` and `_frame_times`. -/
structure LoopState where
  streaming : Bool
  connected : Bool
  pauseUntil : ℚ
  frameTimes : List ℚ
deriving DecidableEq

/-- How one `send_get_frame` exchange ends: a frame (or error-shaped)
result, a `ConnectionError`, or some other exception. -/
inductive PollOutcome where
  | ok (meta : FrameMeta) (img : Option Img)
  | connLost
  | otherErr
deriving DecidableEq

/-- The environment of one loop iteration: `time.time()` at the pause
check, `time.time()` after the poll, and how the poll ends. -/
structure IterInput where
  now : ℚ
  tDone : ℚ
  outcome : PollOutcome
deriving DecidableEq

/-- Externally visible events of the poller and the photo path. -/
inductive Ev where
  | getFrame
  | takePhoto
  | pauseSet (t : ℚ)
  | disconnected
deriving DecidableEq

/-- Model of `VisionTestGUI._frame_loop`: while streaming and connected, each
iteration first checks the pause deadline — if `now < _photo_pause_until`
it sleeps and retries without sending anything; otherwise it sends
`GET_FRAME`.  A successful poll records the completion time in the
rolling window; a `ConnectionError` triggers `_disconnect` (clearing
`streaming` and `connected`) and breaks the loop; any other exception
is transient and the loop continues.  Returns the final state and the
emitted events. -/
def frameLoop : List IterInput → LoopState → LoopState × List Ev
  | [], s => (s, [])
  | i :: rest, s =>
    if s.streaming = true ∧ s.connected = true then
      if i.now < s.pauseUntil then
        frameLoop rest s
      else
        match i.outcome with
        | .ok _ _ =>
          match frameLoop rest
              { s with frameTimes := updateFrameTimes s.frameTimes i.tDone } with
          | (s1, evs) => (s1, .getFrame :: evs)
        | .connLost =>
          ({ s with streaming := false, connected := false },
            [.getFrame, .disconnected])
        | .otherErr =>
          match frameLoop rest s with
          | (s1, evs) => (s1, .getFrame :: evs)
    else (s, [])

/-- Model of `VisionTestGUI._do_take_photo`, pause-relevant part: set
`_photo_pause_until = time.time() + 4` and only then send
`TAKE_PHOTO`. -/
def doTakePhoto (now : ℚ) (s : LoopState) : LoopState × List Ev :=
  ({ s with pauseUntil := now + 4 }, [.pauseSet (now + 4), .takePhoto])

/-! ## Helper lemmas -/

theorem recv_fst_length_le (k : Nat) (s : List (List Nat)) :
    (recv k s).1.length ≤ k := by
  cases s with
  | nil => simp [recv]
  | cons c rest => simp [recv]

/-- Whenever `_read_exact`'s loop returns, the buffer holds exactly the
number of bytes that were missing. -/
theorem readExactAux_ok_length (need : Nat) :
    ∀ (s : List (List Nat)) (buf : List Nat) (s1 : List (List Nat)),
      readExactAux need s = .ok (buf, s1) → buf.length = need := by
  induction need using Nat.strong_induction_on with
  | _ need ih =>
    intro s buf s1 h
    rw [readExactAux] at h
    split at h
    · rename_i h0
      simp only [Except.ok.injEq, Prod.mk.injEq] at h
      rw [← h.1]
      simp [h0]
    · rename_i h0
      split at h
      · simp at h
      · rename_i hc
        split at h
        · simp at h
        · rename_i rest s2 heq
          simp only [Except.ok.injEq, Prod.mk.injEq] at h
          have h1 : 0 < (recv (min need 65536) s).1.length :=
            List.length_pos.mpr hc
          have hlt : need - (recv (min need 65536) s).1.length < need := by
            omega
          have hrest := ih _ hlt _ _ _ heq
          have hle : (recv (min need 65536) s).1.length ≤ min need 65536 :=
            recv_fst_length_le _ _
          have hmin : min need 65536 ≤ need := Nat.min_le_left _ _
          rw [← h.1]
          simp only [List.length_append]
          omega

/-! ## Claim theorems -/

/-- Claim C1: For every `n ≥ 1` and every incoming byte stream,
`_read_exact(n)` either raises `ConnectionError` (a zero-length read
occurred before `n` bytes were accumulated) or returns a byte string of
length exactly `n`; no caller ever observes a shorter result. -/
theorem readExact_length_or_error (n : Int) (hn : 1 ≤ n)
    (s : List (List Nat)) :
    readExact n s = .error () ∨
      ∃ buf s1, readExact n s = .ok (buf, s1) ∧ (buf.length : Int) = n := by
  cases hres : readExact n s with
  | error e =>
    cases e
    exact Or.inl rfl
  | ok p =>
    right
    obtain ⟨buf, s1⟩ := p
    refine ⟨buf, s1, rfl, ?_⟩
    have hres1 : readExactAux n.toNat s = .ok (buf, s1) := hres
    have hlen : buf.length = n.toNat := readExactAux_ok_length n.toNat s buf s1 hres1
    omega

theorem readExact_length_or_error_witness :
    (1 : Int) ≤ 2 ∧
      (readExact 2 [[5, 6, 7]] = .error () ∨
        ∃ buf s1, readExact 2 [[5, 6, 7]] = .ok (buf, s1) ∧
          (buf.length : Int) = 2) :=
  ⟨by norm_num, readExact_length_or_error 2 (by norm_num) [[5, 6, 7]]⟩

/-- Claim C9: For every `n ≤ 0`, `_read_exact(n)` returns the empty byte
string at once — no socket read, no exception; hence a 4-byte wire
length with its high bit set, which `_read_int` decodes as a negative
signed integer, makes the subsequent `_read_exact` yield an empty
segment rather than an error or a huge read. -/
theorem readExact_nonpositive_no_read :
    (∀ (n : Int) (s : List (List Nat)), n ≤ 0 → readExact n s = .ok ([], s)) ∧
    (∀ b0 b1 b2 b3 : Nat, b0 ≤ 255 → b1 ≤ 255 → b2 ≤ 255 → b3 ≤ 255 →
      128 ≤ b0 →
      decodeInt32BE [b0, b1, b2, b3] < 0 ∧
      ∀ s : List (List Nat),
        readExact (decodeInt32BE [b0, b1, b2, b3]) s = .ok ([], s)) := by
  have hz : ∀ (n : Int) (s : List (List Nat)), n ≤ 0 →
      readExact n s = .ok ([], s) := by
    intro n s hn
    have h0 : n.toNat = 0 := by omega
    rw [readExact, h0, readExactAux]
    simp
  refine ⟨hz, ?_⟩
  intro b0 b1 b2 b3 hb0 hb1 hb2 hb3 hhi
  have hneg : decodeInt32BE [b0, b1, b2, b3] < 0 := by
    simp only [decodeInt32BE, List.getD_cons_zero, List.getD_cons_succ]
    rw [if_neg (by omega : ¬(b0 * 2 ^ 24 + b1 * 2 ^ 16 + b2 * 2 ^ 8 + b3 < 2 ^ 31))]
    push_cast
    omega
  exact ⟨hneg, fun s => hz _ s (le_of_lt hneg)⟩

theorem readExact_nonpositive_no_read_witness :
    ((-3 : Int) ≤ 0 ∧ readExact (-3) [[1, 2]] = .ok ([], [[1, 2]])) ∧
    ((255 : Nat) ≤ 255 ∧ (0 : Nat) ≤ 255 ∧ (128 : Nat) ≤ 255 ∧
      decodeInt32BE [255, 0, 0, 0] < 0 ∧
      readExact (decodeInt32BE [255, 0, 0, 0]) [[9]] = .ok ([], [[9]])) := by
  refine ⟨⟨by norm_num, readExact_nonpositive_no_read.1 (-3) [[1, 2]] (by norm_num)⟩,
    by norm_num, by norm_num, by norm_num, ?_, ?_⟩
  · exact (readExact_nonpositive_no_read.2 255 0 0 0 (by norm_num) (by norm_num)
      (by norm_num) (by norm_num) (by norm_num)).1
  · exact (readExact_nonpositive_no_read.2 255 0 0 0 (by norm_num) (by norm_num)
      (by norm_num) (by norm_num) (by norm_num)).2 [[9]]

/-- Claim C5: When the `GET_FRAME` response header line is not the
expected `FRAME` marker, `send_get_frame` returns — without raising —
the error-shaped metadata carrying the raw header under the error key,
with no image, and reads no length-prefixed segments (the stream is
left exactly where the header line ended). -/
theorem send_get_frame_bad_header (s s1 : List (List Nat))
    (header : List Nat) (hline : readLineAux s = .ok (header, s1))
    (hm : startsWithMarker header = false) :
    send_get_frame s = .ok (.errorHeader header, s1) := by
  unfold send_get_frame
  rw [hline]
  simp [hm]

theorem send_get_frame_bad_header_witness :
    readLineAux [[69, 82, 82, 79, 82, 95, 78, 79, 95, 67, 65, 77, 69, 82, 65, 10]] =
        .ok ([69, 82, 82, 79, 82, 95, 78, 79, 95, 67, 65, 77, 69, 82, 65], []) ∧
    startsWithMarker [69, 82, 82, 79, 82, 95, 78, 79, 95, 67, 65, 77, 69, 82, 65] =
        false ∧
    send_get_frame [[69, 82, 82, 79, 82, 95, 78, 79, 95, 67, 65, 77, 69, 82, 65, 10]] =
      .ok (.errorHeader [69, 82, 82, 79, 82, 95, 78, 79, 95, 67, 65, 77, 69, 82, 65],
        []) := by
  have h1 : readLineAux
      [[69, 82, 82, 79, 82, 95, 78, 79, 95, 67, 65, 77, 69, 82, 65, 10]] =
      .ok ([69, 82, 82, 79, 82, 95, 78, 79, 95, 67, 65, 77, 69, 82, 65], []) := by
    simp [readLineAux, recv]
  have h2 : startsWithMarker
      [69, 82, 82, 79, 82, 95, 78, 79, 95, 67, 65, 77, 69, 82, 65] = false := by
    decide
  exact ⟨h1, h2, send_get_frame_bad_header _ _ _ h1 h2⟩

/-- The render-path submission step never changes the queue's
capacity. -/
theorem renderFrameStep_maxsize (avail : Bool) (s : SysState)
    (meta : FrameMeta) (img : Option Img) (now : ℚ) :
    (renderFrameStep avail s meta img now).1.maxsize = s.maxsize := by
  cases img with
  | none => rfl
  | some i =>
    simp only [renderFrameStep]
    split
    · split
      · rename_i s1 heq
        rw [putNowait] at heq
        split at heq
        · simp at heq
        · simp only [Option.some.injEq] at heq
          rw [← heq]
      · rfl
    · rfl

/-- A render-path submission step on a capacity-1 state with at most
one queued job leaves at most one queued job: an enqueue happens only
when the queue was empty. -/
theorem renderFrameStep_queue_le (avail : Bool) (s : SysState)
    (meta : FrameMeta) (img : Option Img) (now : ℚ)
    (hm : s.maxsize = 1) (hl : s.queue.length ≤ 1) :
    (renderFrameStep avail s meta img now).1.queue.length ≤ 1 := by
  cases img with
  | none => exact hl
  | some i =>
    simp only [renderFrameStep]
    split
    · split
      · rename_i s1 heq
        rw [putNowait] at heq
        split at heq
        · simp at heq
        · rename_i hlt
          simp only [Option.some.injEq] at heq
          rw [← heq]
          simp only [List.length_append, List.length_singleton]
          omega
      · exact hl
    · exact hl

/-- Every reachable pipeline state keeps the initial capacity 1 and at
most one queued job. -/
theorem reach_invariant {s : SysState} (h : Reach s) :
    s.maxsize = 1 ∧ s.queue.length ≤ 1 := by
  induction h with
  | init => simp [initState]
  | render avail meta img now hs ih =>
    rename_i s0
    obtain ⟨hm, hl⟩ := ih
    constructor
    · rw [renderFrameStep_maxsize]
      exact hm
    · exact renderFrameStep_queue_le avail s0 meta img now hm hl
  | workerTake hs j rest hq ih =>
    rename_i s0
    obtain ⟨hm, hl⟩ := ih
    refine ⟨hm, ?_⟩
    rw [hq] at hl
    simp only [List.length_cons] at hl
    show rest.length ≤ 1
    omega
  | workerDone hs ih => exact ih
  | clearLabels hs ih => exact ih

/-- Claim C2: The analysis job queue has depth at most 1 in every
reachable state: it is created with capacity 1, a submission attempted
while the queue is full is a no-op, and no operation makes the depth
exceed 1. -/
theorem race_queue_depth_le_one :
    initState.maxsize = 1 ∧
    (∀ s : SysState, Reach s → s.queue.length ≤ 1) ∧
    (∀ (avail : Bool) (s : SysState) (meta : FrameMeta) (img : Option Img)
        (now : ℚ), queueFull s = true →
      renderFrameStep avail s meta img now = (s, false)) := by
  refine ⟨rfl, ?_, ?_⟩
  · intro s h
    exact (reach_invariant h).2
  · intro avail s meta img now hfull
    cases img with
    | none => rfl
    | some i =>
      have hc : ¬(avail = true ∧ meta.faces ≠ [] ∧ s.running = false ∧
          queueFull s = false ∧ now - s.raceLast > 5) := by
        intro hcond
        rw [hcond.2.2.2.1] at hfull
        exact Bool.false_ne_true hfull
      simp [renderFrameStep, hc]

theorem race_queue_depth_le_one_witness :
    Reach initState ∧ initState.queue.length ≤ 1 ∧
    queueFull ⟨[⟨0, 0, 10, 10⟩], 1, false, 0⟩ = true ∧
    renderFrameStep true ⟨[⟨0, 0, 10, 10⟩], 1, false, 0⟩ ⟨[]⟩ none 6 =
      (⟨[⟨0, 0, 10, 10⟩], 1, false, 0⟩, false) := by
  refine ⟨Reach.init, race_queue_depth_le_one.2.1 initState Reach.init, rfl, ?_⟩
  exact race_queue_depth_le_one.2.2 true _ ⟨[]⟩ none 6 rfl

/-- Claim C3, counterexample to the claim as stated: With all five listed
conditions true (engine available, a detected face, worker idle, queue
empty, more than 5 s since the last submission) but no image payload,
`_render_frame` returns before the eligibility check and submits no
job — so the five conditions alone are not equivalent to submission. -/
theorem render_submit_iff_counterexample :
    ¬ (((renderFrameStep true initState ⟨[⟨0, 0, 10, 10⟩]⟩ none 6).2 = true) ↔
      ((true : Bool) = true ∧ (⟨[⟨0, 0, 10, 10⟩]⟩ : FrameMeta).faces ≠ [] ∧
        initState.running = false ∧ queueFull initState = false ∧
        (6 : ℚ) - initState.raceLast > 5)) := by
  intro h
  have hfive : (true : Bool) = true ∧
      (⟨[⟨0, 0, 10, 10⟩]⟩ : FrameMeta).faces ≠ [] ∧
      initState.running = false ∧ queueFull initState = false ∧
      (6 : ℚ) - initState.raceLast > 5 :=
    ⟨rfl, by simp, rfl, rfl, by norm_num [initState]⟩
  have hsub := h.mpr hfive
  simp [renderFrameStep] at hsub

/-- Claim C3, amended: On a rendered frame, an analysis job is submitted
iff the frame carries an image payload *and* all five conditions hold
at the check: the engine is available, the metadata reports at least
one face, the worker is idle, the single-slot queue is free, and more
than 5 seconds have elapsed since the last submission; if any of these
fails, zero jobs are submitted for that frame. -/
theorem render_submit_iff (avail : Bool) (s : SysState) (meta : FrameMeta)
    (img : Option Img) (now : ℚ) :
    (renderFrameStep avail s meta img now).2 = true ↔
      (img.isSome = true ∧ avail = true ∧ meta.faces ≠ [] ∧
        s.running = false ∧ queueFull s = false ∧ now - s.raceLast > 5) := by
  cases img with
  | none => simp [renderFrameStep]
  | some i =>
    simp only [renderFrameStep, Option.isSome_some, true_and]
    by_cases hcond : avail = true ∧ meta.faces ≠ [] ∧ s.running = false ∧
        queueFull s = false ∧ now - s.raceLast > 5
    · rw [if_pos hcond]
      have hput : putNowait s meta.faces.headI =
          some { s with queue := s.queue ++ [meta.faces.headI] } := by
        rw [putNowait, if_neg]
        intro hle
        have hns := hcond.2.2.2.1
        simp only [queueFull, decide_eq_false_iff_not] at hns
        exact hns hle
      rw [hput]
      exact iff_of_true rfl hcond
    · rw [if_neg hcond]
      exact iff_of_false (by simp) hcond

/-- Claim C6: The analysis worker loop is never terminated by an
exception from the per-job classification call: the exception is
caught, the explicit error label is published, the worker is idle
again, and the next job is still processed; only the `None` sentinel
exits the loop. -/
theorem race_worker_survives (classify : Face → Except Unit String) :
    (∀ (e : QEvent) (s : WState),
      (workerStep classify e s).2.2 = true ↔ e = .sentinel) ∧
    (∀ (j : Face) (s : WState), classify j = .error () →
      workerStep classify (.job j) s =
        (⟨false, s.result⟩, some "Race: Error", false)) ∧
    (∀ (j : Face) (s : WState) (r : String), classify j = .ok r →
      workerStep classify (.job j) s = (⟨false, some r⟩, some r, false)) ∧
    (∀ (j1 j2 : Face) (r : String) (s : WState),
      classify j1 = .error () → classify j2 = .ok r →
      workerRun classify [.job j1, .job j2] s =
        (⟨false, some r⟩, ["Race: Error", r], false)) := by
  refine ⟨?_, ?_, ?_, ?_⟩
  · intro e s
    cases e with
    | timeout => simp [workerStep]
    | sentinel => simp [workerStep]
    | job j =>
      cases hc : classify j with
      | ok r => simp [workerStep, hc]
      | error u => simp [workerStep, hc]
  · intro j s hc
    simp [workerStep, hc]
  · intro j s r hc
    simp [workerStep, hc]
  · intro j1 j2 r s h1 h2
    simp [workerRun, workerStep, h1, h2]

theorem race_worker_survives_witness :
    ((fun f : Face => if f.x = 0 then (.error () : Except Unit String)
        else .ok "Asian (87%)") ⟨0, 0, 0, 0⟩ = .error ()) ∧
    ((fun f : Face => if f.x = 0 then (.error () : Except Unit String)
        else .ok "Asian (87%)") ⟨1, 0, 0, 0⟩ = .ok "Asian (87%)") ∧
    workerRun (fun f : Face => if f.x = 0 then (.error () : Except Unit String)
        else .ok "Asian (87%)")
        [.job ⟨0, 0, 0, 0⟩, .job ⟨1, 0, 0, 0⟩] ⟨false, none⟩ =
      (⟨false, some "Asian (87%)"⟩, ["Race: Error", "Asian (87%)"], false) := by
  have h1 : (fun f : Face => if f.x = 0 then (.error () : Except Unit String)
      else .ok "Asian (87%)") ⟨0, 0, 0, 0⟩ = .error () := by simp
  have h2 : (fun f : Face => if f.x = 0 then (.error () : Except Unit String)
      else .ok "Asian (87%)") ⟨1, 0, 0, 0⟩ = .ok "Asian (87%)" := by simp
  exact ⟨h1, h2, (race_worker_survives _).2.2.2 ⟨0, 0, 0, 0⟩ ⟨1, 0, 0, 0⟩
    "Asian (87%)" ⟨false, none⟩ h1 h2⟩

/-- In a sorted list the (default-valued) head is a lower bound of the
members. -/
theorem sorted_headD_le (l : List ℚ) (hs : l.Sorted (· ≤ ·)) :
    ∀ t ∈ l, l.headD 0 ≤ t := by
  cases l with
  | nil => intro t ht; simp at ht
  | cons a l =>
    intro t ht
    rcases List.mem_cons.mp ht with h | h
    · simp [h, List.headD_cons]
    · exact List.rel_of_sorted_cons hs t h

/-- The rolling window after one poll is the filtered old entries with
the fresh timestamp at the end (the fresh timestamp always survives its
own filter). -/
theorem updateFrameTimes_eq (times : List ℚ) (now : ℚ) :
    updateFrameTimes times now =
      times.filter (fun t => now - t < 2) ++ [now] := by
  have hp : (now - now < 2) := by norm_num
  simp [updateFrameTimes, List.filter_append, hp]

/-- Claim C7: The rolling client frame-rate window keeps only
poll-completion timestamps within 2 seconds of the newest entry (which
is the just-appended one), and whenever a rate is reported it equals
`(count - 1) / duration` with `count` the retained entries and
`duration` the span from the oldest to the newest retained
timestamp. -/
theorem frame_window_and_rate (times : List ℚ) (now : ℚ)
    (hs : times.Sorted (· ≤ ·)) (hle : ∀ t ∈ times, t ≤ now) :
    (∀ t ∈ updateFrameTimes times now, now - t < 2) ∧
    (updateFrameTimes times now).getLastD 0 = now ∧
    (∀ t ∈ updateFrameTimes times now,
      (updateFrameTimes times now).headD 0 ≤ t) ∧
    (∀ r, clientFps (updateFrameTimes times now) = some r →
      r = (((updateFrameTimes times now).length - 1 : ℕ) : ℚ) /
        ((updateFrameTimes times now).getLastD 0 -
          (updateFrameTimes times now).headD 0)) := by
  refine ⟨?_, ?_, ?_, ?_⟩
  · intro t ht
    rw [updateFrameTimes] at ht
    have := List.of_mem_filter ht
    simpa using this
  · rw [updateFrameTimes_eq]
    exact List.getLastD_concat _ _ _
  · have hsorted : (updateFrameTimes times now).Sorted (· ≤ ·) := by
      rw [updateFrameTimes_eq]
      refine List.pairwise_append.mpr ⟨hs.filter _, List.sorted_singleton now, ?_⟩
      intro a ha b hb
      rw [List.mem_singleton] at hb
      rw [hb]
      exact hle a (List.mem_of_mem_filter ha)
    exact sorted_headD_le _ hsorted
  · intro r hr
    unfold clientFps at hr
    split at hr
    · split at hr
      · simp only [Option.some.injEq] at hr
        exact hr.symm
      · simp at hr
    · simp at hr

theorem frame_window_and_rate_witness :
    ([(0 : ℚ), 1].Sorted (· ≤ ·)) ∧ (∀ t ∈ [(0 : ℚ), 1], t ≤ 2) ∧
    (∀ t ∈ updateFrameTimes [(0 : ℚ), 1] 2, 2 - t < 2) ∧
    (updateFrameTimes [(0 : ℚ), 1] 2).getLastD 0 = 2 ∧
    (∀ t ∈ updateFrameTimes [(0 : ℚ), 1] 2,
      (updateFrameTimes [(0 : ℚ), 1] 2).headD 0 ≤ t) ∧
    (∀ r, clientFps (updateFrameTimes [(0 : ℚ), 1] 2) = some r →
      r = (((updateFrameTimes [(0 : ℚ), 1] 2).length - 1 : ℕ) : ℚ) /
        ((updateFrameTimes [(0 : ℚ), 1] 2).getLastD 0 -
          (updateFrameTimes [(0 : ℚ), 1] 2).headD 0)) := by
  have h1 : [(0 : ℚ), 1].Sorted (· ≤ ·) := by
    norm_num [List.sorted_cons]
  have h2 : ∀ t ∈ [(0 : ℚ), 1], t ≤ 2 := by
    intro t ht
    simp only [List.mem_cons, List.mem_singleton] at ht
    rcases ht with h | h | h <;> first | (rw [h]; norm_num) | simp at h
  obtain ⟨a, b, c, d⟩ := frame_window_and_rate [(0 : ℚ), 1] 2 h1 h2
  exact ⟨h1, h2, a, b, c, d⟩

/-- Claim C10: The client frame-rate display is updated only when the
rolling window holds at least two timestamps and the first-to-last
span is strictly positive, so the `(count - 1) / duration` computation
never divides by zero; otherwise the previous displayed value is left
unchanged. -/
theorem client_fps_guard :
    (∀ (times : List ℚ) (prev : Option ℚ), times.length < 2 →
      fpsLabelAfter times prev = prev) ∧
    (∀ (times : List ℚ) (prev : Option ℚ),
      times.getLastD 0 - times.headD 0 ≤ 0 → fpsLabelAfter times prev = prev) ∧
    (∀ (times : List ℚ) (v : ℚ), clientFps times = some v →
      2 ≤ times.length ∧ 0 < times.getLastD 0 - times.headD 0 ∧
      v = ((times.length - 1 : ℕ) : ℚ) /
        (times.getLastD 0 - times.headD 0)) := by
  refine ⟨?_, ?_, ?_⟩
  · intro times prev hlen
    unfold fpsLabelAfter clientFps
    rw [if_neg (by omega : ¬(2 ≤ times.length))]
  · intro times prev hz
    unfold fpsLabelAfter clientFps
    by_cases hlen : 2 ≤ times.length
    · rw [if_pos hlen, if_neg (not_lt.mpr hz)]
    · rw [if_neg hlen]
  · intro times v hv
    unfold clientFps at hv
    split at hv
    · rename_i hlen
      split at hv
      · rename_i hpos
        simp only [Option.some.injEq] at hv
        exact ⟨hlen, hpos, hv.symm⟩
      · simp at hv
    · simp at hv

theorem client_fps_guard_witness :
    ([(5 : ℚ)].length < 2 ∧ fpsLabelAfter [(5 : ℚ)] (some 3) = some 3) ∧
    ([(1 : ℚ), 1].getLastD 0 - [(1 : ℚ), 1].headD 0 ≤ 0 ∧
      fpsLabelAfter [(1 : ℚ), 1] (some 3) = some 3) := by
  have hz : [(1 : ℚ), 1].getLastD 0 - [(1 : ℚ), 1].headD 0 ≤ 0 := by
    norm_num [List.getLastD_cons, List.getLastD_nil, List.headD_cons]
  exact ⟨⟨by norm_num, client_fps_guard.1 [(5 : ℚ)] (some 3) (by norm_num)⟩,
    hz, client_fps_guard.2.1 [(1 : ℚ), 1] (some 3) hz⟩

/-- Claim C4: While `now < _photo_pause_until`, a frame-loop iteration
sends no `GET_FRAME` (it sleeps and retries, leaving state and event
trace exactly as if the iteration had not happened); `_do_take_photo`
sets the pause deadline to now plus the 4-second grace period strictly
before emitting the `TAKE_PHOTO` request, so no `GET_FRAME` is issued
during the grace period even though the loop keeps iterating. -/
theorem pause_suppresses_get_frame :
    (∀ (i : IterInput) (rest : List IterInput) (s : LoopState),
      i.now < s.pauseUntil → frameLoop (i :: rest) s = frameLoop rest s) ∧
    (∀ (now : ℚ) (s : LoopState),
      (doTakePhoto now s).1.pauseUntil = now + 4 ∧
      (doTakePhoto now s).2 = [.pauseSet (now + 4), .takePhoto]) ∧
    (∀ (now : ℚ) (s : LoopState) (i : IterInput) (rest : List IterInput),
      i.now < now + 4 →
      frameLoop (i :: rest) (doTakePhoto now s).1 =
        frameLoop rest (doTakePhoto now s).1) := by
  have hpause : ∀ (i : IterInput) (rest : List IterInput) (s : LoopState),
      i.now < s.pauseUntil → frameLoop (i :: rest) s = frameLoop rest s := by
    intro i rest s hlt
    by_cases hg : s.streaming = true ∧ s.connected = true
    · simp only [frameLoop]
      rw [if_pos hg, if_pos hlt]
    · simp only [frameLoop]
      rw [if_neg hg]
      cases rest with
      | nil => rfl
      | cons j t =>
        simp only [frameLoop]
        rw [if_neg hg]
  refine ⟨hpause, fun now s => ⟨rfl, rfl⟩, ?_⟩
  intro now s i rest hlt
  exact hpause i rest _ hlt

theorem pause_suppresses_get_frame_witness :
    ((⟨0, 0, .otherErr⟩ : IterInput).now <
        (⟨true, true, 1, []⟩ : LoopState).pauseUntil ∧
      frameLoop [⟨0, 0, .otherErr⟩] ⟨true, true, 1, []⟩ =
        frameLoop [] ⟨true, true, 1, []⟩) ∧
    ((doTakePhoto 7 ⟨true, true, 0, []⟩).1.pauseUntil = 7 + 4 ∧
      (doTakePhoto 7 ⟨true, true, 0, []⟩).2 = [.pauseSet (7 + 4), .takePhoto]) ∧
    ((⟨8, 8, .connLost⟩ : IterInput).now < 7 + 4 ∧
      frameLoop [⟨8, 8, .connLost⟩] (doTakePhoto 7 ⟨true, true, 0, []⟩).1 =
        frameLoop [] (doTakePhoto 7 ⟨true, true, 0, []⟩).1) := by
  refine ⟨⟨by norm_num, pause_suppresses_get_frame.1 _ [] _ (by norm_num)⟩,
    pause_suppresses_get_frame.2.1 7 ⟨true, true, 0, []⟩, by norm_num,
    pause_suppresses_get_frame.2.2 7 ⟨true, true, 0, []⟩ _ [] (by norm_num)⟩

/-- Claim C8: If the peer closes mid-`_read_exact` after delivering 10 of
50 requested bytes, a `ConnectionError` is raised; in the frame loop a
`ConnectionError` ends the loop through `_disconnect`: the `connected`
flag (and `streaming`) become false and no further `GET_FRAME` is
attempted — the event trace ends at the disconnect, whatever inputs
would have followed. -/
theorem conn_lost_teardown :
    readExact 50 [List.replicate 10 7] = .error () ∧
    (∀ (pre : List IterInput) (i : IterInput) (rest : List IterInput)
        (s : LoopState),
      s.streaming = true → s.connected = true →
      (∀ j ∈ pre, ¬(j.now < s.pauseUntil) ∧ ∃ m im, j.outcome = .ok m im) →
      ¬(i.now < s.pauseUntil) → i.outcome = .connLost →
      (frameLoop (pre ++ i :: rest) s).1.connected = false ∧
      (frameLoop (pre ++ i :: rest) s).1.streaming = false ∧
      (frameLoop (pre ++ i :: rest) s).2 =
        List.replicate pre.length .getFrame ++ [.getFrame, .disconnected]) := by
  constructor
  · simp [readExact, readExactAux, recv]
  · intro pre
    induction pre with
    | nil =>
      intro i rest s hstr hconn hpre hnp hout
      simp only [List.nil_append, frameLoop]
      rw [if_pos ⟨hstr, hconn⟩, if_neg hnp, hout]
      exact ⟨rfl, rfl, rfl⟩
    | cons j pre ih =>
      intro i rest s hstr hconn hpre hnp hout
      obtain ⟨hjnp, m, im, hjout⟩ := hpre j (List.mem_cons_self j _)
      have hpre1 : ∀ k ∈ pre,
          ¬(k.now < s.pauseUntil) ∧ ∃ m im, k.outcome = .ok m im :=
        fun k hk => hpre k (List.mem_cons_of_mem _ hk)
      have hrec := ih i rest
        { s with frameTimes := updateFrameTimes s.frameTimes j.tDone }
        hstr hconn hpre1 hnp hout
      simp only [List.cons_append, frameLoop]
      rw [if_pos ⟨hstr, hconn⟩, if_neg hjnp, hjout]
      rcases hfl : frameLoop (pre ++ i :: rest)
          { s with frameTimes := updateFrameTimes s.frameTimes j.tDone }
        with ⟨s2, evs⟩
      rw [hfl] at hrec
      refine ⟨hrec.1, hrec.2.1, ?_⟩
      show Ev.getFrame :: evs = _
      have h3 : evs =
          List.replicate pre.length Ev.getFrame ++ [Ev.getFrame, Ev.disconnected] :=
        hrec.2.2
      rw [h3]
      simp [List.replicate_succ]

theorem conn_lost_teardown_witness :
    (⟨true, true, 0, []⟩ : LoopState).streaming = true ∧
    ¬((⟨1, 1, .connLost⟩ : IterInput).now <
        (⟨true, true, 0, []⟩ : LoopState).pauseUntil) ∧
    (frameLoop [⟨1, 1, .connLost⟩] ⟨true, true, 0, []⟩).1.connected = false ∧
    (frameLoop [⟨1, 1, .connLost⟩] ⟨true, true, 0, []⟩).1.streaming = false ∧
    (frameLoop [⟨1, 1, .connLost⟩] ⟨true, true, 0, []⟩).2 =
      List.replicate 0 .getFrame ++ [.getFrame, .disconnected] := by
  have h := conn_lost_teardown.2 [] ⟨1, 1, .connLost⟩ [] ⟨true, true, 0, []⟩
    rfl rfl (by intro k hk; simp at hk) (by norm_num) rfl
  exact ⟨rfl, by norm_num, h.1, h.2.1, h.2.2⟩

end SotaVision
